import Mathlib

/-!
Verification development for the recipe-duck deterministic post-processing
pipeline: the formatter (`RecipeFormatter.format`, `renumber_instructions`,
`_normalize_fractions`, `_normalize_units`), the markdown parser
(`NotionRecipeClient.parse_recipe_markdown`), the block compiler
(`_build_page_content`), the property builder and the schema-degrade retry
of `push_recipe`.  The Python code is shallowly embedded as executable Lean
functions over `List Char` with `String` wrappers; Python regexes are
translated into explicit leftmost-match scanners following the exact
backtracking behaviour of the concrete patterns used by the source.
-/

set_option maxRecDepth 4000

/-- Python whitespace class used by `str.strip`, `str.lstrip` and the regex
class backslash-s (ASCII range). -/
def pySpace (c : Char) : Bool :=
  c == ' ' || c == '\t' || c == '\n' || c == '\r' || c == '\x0b' || c == '\x0c'

/-- Python regex word character (ASCII range), used for word boundaries. -/
def isWordChar (c : Char) : Bool :=
  c.isAlpha || c.isDigit || c == '_'

/-- Uppercase ASCII letter, the class [A-Z] of the section boundary regex. -/
def pyUpper (c : Char) : Bool :=
  'A' ≤ c && c ≤ 'Z'

/-- Left strip of Python `str.lstrip()`. -/
def lstripL (l : List Char) : List Char := l.dropWhile pySpace

/-- Right strip of Python `str.rstrip()`. -/
def rstripL (l : List Char) : List Char := (l.reverse.dropWhile pySpace).reverse

/-- Both-sides strip of Python `str.strip()`. -/
def stripL (l : List Char) : List Char := rstripL (lstripL l)

/-- Split on a single character, as Python `str.split(c)` (always returns at
least one piece; the empty string yields one empty piece). -/
def splitOnC (sep : Char) : List Char → List (List Char)
  | [] => [[]]
  | c :: t =>
    if c == sep then [] :: splitOnC sep t
    else
      match splitOnC sep t with
      | [] => [[c]]
      | h :: r => (c :: h) :: r

/-- Split on newline, as Python `str.split(chr(10))`. -/
def splitNl (l : List Char) : List (List Char) := splitOnC '\n' l

/-- Join with newline, as Python `str.join` with a newline separator. -/
def joinNl : List (List Char) → List Char
  | [] => []
  | [l] => l
  | l :: ls => l ++ '\n' :: joinNl ls

/-- Substring containment, as the Python `in` operator on strings. -/
def containsSub (s pat : List Char) : Bool :=
  if pat.isPrefixOf s then true
  else
    match s with
    | [] => false
    | _ :: t => containsSub t pat

/-- String wrapper for substring containment. -/
def pyContains (s pat : String) : Bool := containsSub s.data pat.data

/-- Fueled worker of Python `str.replace`: replace all leftmost
non-overlapping occurrences of `pat` by `rep`.  Fuel at least the length of
the subject is always sufficient because every step consumes a character. -/
def replaceAllF (rep pat : List Char) : Nat → List Char → List Char
  | 0, s => s
  | _ + 1, [] => []
  | fuel + 1, c :: t =>
    if pat.isPrefixOf (c :: t) && !pat.isEmpty then
      rep ++ replaceAllF rep pat fuel ((c :: t).drop pat.length)
    else
      c :: replaceAllF rep pat fuel t

/-- Python `str.replace(pat, rep)` for a non-empty pattern. -/
def replaceAll (pat rep s : List Char) : List Char :=
  replaceAllF rep pat s.length s

/-- Case-insensitive prefix test (ASCII lowering, as the IGNORECASE flag of
the unit regex). -/
def ciPrefixOf : List Char → List Char → Bool
  | [], _ => true
  | _ :: _, [] => false
  | p :: ps, c :: cs => (p.toLower == c.toLower) && ciPrefixOf ps cs

/-- Digits of a natural number, for the f-string `{step_number}. `. -/
def natToL (n : Nat) : List Char :=
  go (n + 1) n
where
  go : Nat → Nat → List Char
    | 0, _ => []
    | fuel + 1, m =>
      if m < 10 then [Char.ofNat (48 + m)]
      else go fuel (m / 10) ++ [Char.ofNat (48 + m % 10)]

/-! ## FormattingConfig (src/recipe_duck/config.py)

The Python dict literal `unit_normalizations` writes the key "c" twice
("c": "cup" among the volume entries and "c": "°C" among the temperature
entries).  A Python dict literal keeps the position of the first insertion
and the value of the last one, so the effective dict has a single key "c",
in the volume position, with value "°C".  The association list below is
that effective dict in iteration order. -/

def unit_normalizations : List (String × String) :=
  [("tbsp", "tablespoon"), ("tbs", "tablespoon"), ("T", "tablespoon"),
   ("tsp", "teaspoon"), ("t", "teaspoon"), ("c", "°C"), ("pt", "pint"),
   ("qt", "quart"), ("gal", "gallon"), ("fl oz", "fluid ounce"),
   ("fl. oz", "fluid ounce"), ("ml", "milliliter"), ("l", "liter"),
   ("oz", "ounce"), ("lb", "pound"), ("lbs", "pound"), ("g", "gram"),
   ("kg", "kilogram"), ("mg", "milligram"), ("f", "°F"), ("°f", "°F"),
   ("°c", "°C")]

def fraction_normalizations : List (String × String) :=
  [("½", "1/2"), ("⅓", "1/3"), ("⅔", "2/3"), ("¼", "1/4"), ("¾", "3/4"),
   ("⅕", "1/5"), ("⅖", "2/5"), ("⅗", "3/5"), ("⅘", "4/5"), ("⅙", "1/6"),
   ("⅚", "5/6"), ("⅐", "1/7"), ("⅛", "1/8"), ("⅜", "3/8"), ("⅝", "5/8"),
   ("⅞", "7/8"), ("⅑", "1/9"), ("⅒", "1/10"),
   ("0.5", "1/2"), ("0.33", "1/3"), ("0.67", "2/3"), ("0.25", "1/4"),
   ("0.75", "3/4")]

def unit_plurals : List (String × String) :=
  [("tablespoon", "tablespoons"), ("teaspoon", "teaspoons"), ("cup", "cups"),
   ("pint", "pints"), ("quart", "quarts"), ("gallon", "gallons"),
   ("fluid ounce", "fluid ounces"), ("ounce", "ounces"), ("pound", "pounds"),
   ("gram", "grams"), ("kilogram", "kilograms"),
   ("milliliter", "milliliters"), ("liter", "liters"), ("clove", "cloves"),
   ("can", "cans"), ("package", "packages"), ("slice", "slices"),
   ("piece", "pieces")]

def enforce_numbered_steps : Bool := true
def enforce_ingredient_bullets : Bool := true
def pluralize_units : Bool := true

/-! ## RecipeFormatter._normalize_fractions -/

/-- Body of `_normalize_fractions`: fold `str.replace` over the fraction map
entries in dict iteration order. -/
def normalizeFractionsL (l : List Char) : List Char :=
  fraction_normalizations.foldl (fun acc kv => replaceAll kv.1.data kv.2.data acc) l

/-- `RecipeFormatter._normalize_fractions`. -/
def normalize_fractions (s : String) : String := ⟨normalizeFractionsL s.data⟩

/-! ## RecipeFormatter._normalize_units

The source builds the regex
`\b(\d+(?:[\/\.\d]*)?)\s*(k1|k2|...)s?\b` (IGNORECASE) from the keys of the
unit map in dict order and applies `re.sub` with a replacer.  The scanner
below reproduces its leftmost non-overlapping matching.  Because no unit
key begins with a digit, a dot, a slash or whitespace, the greedy quantity
and whitespace runs never backtrack, so a match attempt at a position is:
word boundary, maximal digit run (non-empty), maximal run of [/.0-9],
maximal whitespace run, then the first alternation key (in dict order) that
matches case-insensitively and satisfies the optional-s plus trailing word
boundary. -/

/-- Trailing word boundary after a unit (next char absent or non-word). -/
def unitBoundary : List Char → Bool
  | [] => true
  | c :: _ => !isWordChar c

/-- Try each alternation key in order; return the matched text (original
case) and the number of consumed chars, including a consumed plural s. -/
def matchUnitKey (keys : List (List Char)) (cs : List Char) : Option (List Char × Nat) :=
  match keys with
  | [] => none
  | k :: rest =>
    if ciPrefixOf k cs then
      let after := cs.drop k.length
      match after with
      | c :: t =>
        if c.toLower == 's' && unitBoundary t then some (cs.take k.length, k.length + 1)
        else if unitBoundary after then some (cs.take k.length, k.length)
        else matchUnitKey rest cs
      | [] =>
        if unitBoundary after then some (cs.take k.length, k.length)
        else matchUnitKey rest cs
    else matchUnitKey rest cs

/-- Quantity char class of the tail `(?:[\/\.\d]*)?`. -/
def qtyTailChar (c : Char) : Bool := c == '/' || c == '.' || c.isDigit

/-- Value of an all-digit list. -/
def natOfDigits (l : List Char) : Nat :=
  l.foldl (fun acc c => 10 * acc + (c.toNat - 48)) 0

/-- The pluralization test of the replacer: for a quantity token with a
slash, `Fraction(quantity) > 1` with parse failure treated as singular; for
a decimal token, `float(quantity) > 1` with parse failure treated as
singular.  The decimal comparison is modelled exactly on the digit strings;
Python double rounding differs only beyond 15 significant digits. -/
def qtyNeedsPlural (q : List Char) : Bool :=
  if q.contains '/' then
    match splitOnC '/' q with
    | [a, b] =>
      a ≠ [] && b ≠ [] && a.all Char.isDigit && b.all Char.isDigit &&
        natOfDigits b ≠ 0 && natOfDigits b < natOfDigits a
    | _ => false
  else
    match splitOnC '.' q with
    | [a] => 1 < natOfDigits a
    | [a, b] =>
      b.all Char.isDigit &&
        (1 < natOfDigits a || (natOfDigits a == 1 && b.any (fun c => c ≠ '0')))
    | _ => false

/-- The replacer body: resolve the matched key text through the unit map
(lowercased lookup, pass-through default) and pluralize via the plural map
when the quantity is strictly greater than 1. -/
def resolveUnit (qty txt : List Char) : List Char :=
  let lowered : String := ⟨txt.map Char.toLower⟩
  let fullUnit : String :=
    match unit_normalizations.lookup lowered with
    | some v => v
    | none => lowered
  let fullUnit2 : String :=
    if pluralize_units && qtyNeedsPlural qty then
      match unit_plurals.lookup fullUnit with
      | some p => p
      | none => fullUnit
    else fullUnit
  fullUnit2.data

/-- One match attempt of the unit regex at the current position:
returns the replacement text and the number of consumed characters. -/
def tryUnitMatch (wordBefore : Bool) (cs : List Char) : Option (List Char × Nat) :=
  if wordBefore then none
  else
    let ds := cs.takeWhile Char.isDigit
    if ds.isEmpty then none
    else
      let r1 := cs.dropWhile Char.isDigit
      let tl := r1.takeWhile qtyTailChar
      let r2 := r1.dropWhile qtyTailChar
      let qty := ds ++ tl
      let ws := r2.takeWhile pySpace
      let r3 := r2.dropWhile pySpace
      match matchUnitKey (unit_normalizations.map (fun kv => kv.1.data)) r3 with
      | none => none
      | some (txt, n) =>
        some (qty ++ ' ' :: resolveUnit qty txt, qty.length + ws.length + n)

/-- Fueled `re.sub` scan: at each position try a match; on success emit the
replacement and resume after the consumed text (whose last character is
always a word character, so the next word-boundary context is true). -/
def unitsGoF : Nat → Bool → List Char → List Char
  | 0, _, cs => cs
  | fuel + 1, wb, cs =>
    match tryUnitMatch wb cs with
    | some (rep, n) => rep ++ unitsGoF fuel true (cs.drop n)
    | none =>
      match cs with
      | [] => []
      | c :: t => c :: unitsGoF fuel (isWordChar c) t

/-- `RecipeFormatter._normalize_units`. -/
def normalize_units (s : String) : String := ⟨unitsGoF s.data.length false s.data⟩

/-! ## RecipeFormatter line formatting and format -/

/-- `RecipeFormatter._format_ingredient_line`. -/
def format_ingredient_line (line : List Char) : List Char :=
  let stripped := lstripL line
  let line1 :=
    if enforce_ingredient_bullets && !(['-'].isPrefixOf stripped) then
      if !stripped.isEmpty && !(['*'].isPrefixOf stripped) then
        '-' :: ' ' :: stripped
      else if ['*'].isPrefixOf stripped then
        '-' :: ' ' :: lstripL (stripped.drop 1)
      else line
    else line
  unitsGoF (normalizeFractionsL line1).length false (normalizeFractionsL line1)

/-- Match of the instruction-number test regex `^\d+[\.\)]\s` (a digit run,
a dot or a closing parenthesis, then one whitespace char). -/
def matchesNumberedStep (l : List Char) : Bool :=
  let ds := l.takeWhile Char.isDigit
  if ds.isEmpty then false
  else
    match l.drop ds.length with
    | c1 :: c2 :: _ => (c1 == '.' || c1 == ')') && pySpace c2
    | _ => false

/-- `RecipeFormatter._format_instruction_line`. -/
def format_instruction_line (line : List Char) : List Char :=
  let stripped := lstripL line
  if enforce_numbered_steps && !stripped.isEmpty then
    if !matchesNumberedStep stripped then
      if ['-'].isPrefixOf stripped || ['*'].isPrefixOf stripped then
        lstripL (stripped.drop 1)
      else stripped
    else stripped
  else line

/-- Per-line loop of `RecipeFormatter.format` with the two section flags. -/
def formatGo (inIngredients inInstructions : Bool) : List (List Char) → List (List Char)
  | [] => []
  | l :: rest =>
    let st := stripL l
    if "## Ingredients".data.isPrefixOf st then
      l :: formatGo true false rest
    else if "## Instructions".data.isPrefixOf st then
      l :: formatGo false true rest
    else if "##".data.isPrefixOf st || "#".data.isPrefixOf st then
      l :: formatGo false false rest
    else
      let fl :=
        if inIngredients && !st.isEmpty then format_ingredient_line l
        else if inInstructions && !st.isEmpty then format_instruction_line l
        else l
      fl :: formatGo inIngredients inInstructions rest

/-- `RecipeFormatter.format`. -/
def format (s : String) : String :=
  ⟨joinNl (formatGo false false (splitNl s.data))⟩

/-! ## RecipeFormatter.renumber_instructions -/

/-- The substitution `re.sub(r'^\d+[\.\)]\s*', '', stripped)`: drop one
leading digit run followed by a dot or closing parenthesis and any
following whitespace run. -/
def stripNumMarker (l : List Char) : List Char :=
  let ds := l.takeWhile Char.isDigit
  if ds.isEmpty then l
  else
    match l.drop ds.length with
    | c :: rest => if c == '.' || c == ')' then rest.dropWhile pySpace else l
    | [] => l

/-- Per-line loop of `renumber_instructions` with the section flag and the
step counter. -/
def renumGo (inInstructions : Bool) (stepNumber : Nat) : List (List Char) → List (List Char)
  | [] => []
  | l :: rest =>
    let st := stripL l
    if "## Instructions".data.isPrefixOf st then
      l :: renumGo true 1 rest
    else if "##".data.isPrefixOf st || "#".data.isPrefixOf st then
      l :: renumGo false stepNumber rest
    else if st == "---".data then
      l :: renumGo false stepNumber rest
    else if inInstructions && !st.isEmpty then
      let c1 := stripNumMarker st
      let content := if "- ".data.isPrefixOf c1 then stripL (c1.drop 2) else c1
      if !content.isEmpty then
        (if 1 < stepNumber then [[]] else []) ++
          (natToL stepNumber ++ '.' :: ' ' :: content) ::
            renumGo true (stepNumber + 1) rest
      else renumGo true stepNumber rest
    else
      l :: renumGo inInstructions stepNumber rest

/-- `RecipeFormatter.renumber_instructions`. -/
def renumber_instructions (s : String) : String :=
  ⟨joinNl (renumGo false 1 (splitNl s.data))⟩

/-! ## NotionRecipeClient.parse_recipe_markdown

Each extraction is a Python `re.search` with a concrete pattern; the
scanners below reproduce leftmost matching and the backtracking of the
concrete patterns (analysed per pattern in the comments). -/

/-- Name pattern `^#\s+(.+)$` (MULTILINE) at one line start: a hash, a
non-empty whitespace run, then the capture.  When non-whitespace text
follows the run the capture is the text up to the end of its line;
otherwise the engine backs the greedy whitespace run up to the last
character of the run that is not a newline (at least one whitespace char
must stay consumed), capturing just that character. -/
def matchNameAt : List Char → Option (List Char)
  | '#' :: rest =>
    let w := rest.takeWhile pySpace
    if w.isEmpty then none
    else
      match rest.dropWhile pySpace with
      | c :: t => some ((c :: t).takeWhile (fun d => d ≠ '\n'))
      | [] =>
        match (w.drop 1).reverse.dropWhile (fun d => d == '\n') with
        | [] => none
        | c :: _ => some [c]
  | _ => none

/-- Scan of `re.search` for the name pattern: try every line start from the
left. -/
def nameGo (atLineStart : Bool) : List Char → Option (List Char)
  | [] => if atLineStart then matchNameAt [] else none
  | c :: t =>
    match (if atLineStart then matchNameAt (c :: t) else none) with
    | some r => some r
    | none => nameGo (c == '\n') t

/-- Metadata pattern `\*\*Label:\*\*\s*([^\n*]+)` at one position.  After
the literal label the greedy whitespace run is consumed; if a character
that is neither a newline nor a star follows, the capture is the maximal
run of such characters; otherwise the engine backs into the whitespace run
and captures from its last non-newline character (whitespace is allowed in
the capture class). -/
def matchLabelAt (lbl : List Char) (cs : List Char) : Option (List Char) :=
  if lbl.isPrefixOf cs then
    let r := cs.drop lbl.length
    let w := r.takeWhile pySpace
    match r.dropWhile pySpace with
    | c :: t =>
      if c ≠ '*' then
        some ((c :: t).takeWhile (fun d => d ≠ '\n' && d ≠ '*'))
      else
        match w.reverse.dropWhile (fun d => d == '\n') with
        | [] => none
        | d :: _ => some [d]
    | [] =>
      match w.reverse.dropWhile (fun d => d == '\n') with
      | [] => none
      | d :: _ => some [d]
  else none

/-- Scan of `re.search` for a metadata label pattern. -/
def labelGo (lbl : List Char) : List Char → Option (List Char)
  | [] => matchLabelAt lbl []
  | c :: t =>
    match matchLabelAt lbl (c :: t) with
    | some r => some r
    | none => labelGo lbl t

/-- Section heading pattern `##\s+Word\s*\n` at one position: two hashes, a
non-empty whitespace run, the literal word, then a whitespace run that
must contain a newline; consumption ends after the last newline of that
run, where the capture starts. -/
def matchHeadingAt (word : List Char) : List Char → Option (List Char)
  | '#' :: '#' :: rest =>
    let w1 := rest.takeWhile pySpace
    if w1.isEmpty then none
    else
      let r1 := rest.dropWhile pySpace
      if word.isPrefixOf r1 then
        let r2 := r1.drop word.length
        let w2 := r2.takeWhile pySpace
        if w2.contains '\n' then
          some ((w2.reverse.takeWhile (fun d => d ≠ '\n')).reverse ++ r2.dropWhile pySpace)
        else none
      else none
  | _ => none

/-- Scan of `re.search` for a section heading: leftmost position where the
heading prefix matches; returns the suffix at the capture start. -/
def findHeading (word : List Char) : List Char → Option (List Char)
  | [] => matchHeadingAt word []
  | c :: t =>
    match matchHeadingAt word (c :: t) with
    | some r => some r
    | none => findHeading word t

/-- The section terminator lookahead `(?=^---|^##\s[A-Z])` tested at a line
start: a line beginning with three dashes, or two hashes, one whitespace
char and an uppercase letter. -/
def isBoundary (cs : List Char) : Bool :=
  "---".data.isPrefixOf cs ||
    (match cs with
     | a :: b :: c :: d :: _ => a == '#' && b == '#' && pySpace c && pyUpper d
     | _ => false)

/-- Lazy capture `(.*?)` (DOTALL) up to the first line start satisfying the
terminator lookahead; `none` when no terminator follows (the pattern with
the lookahead then fails and the source falls back to capturing to the end
of the document). -/
def captureUntilBoundary (atLineStart : Bool) : List Char → Option (List Char × List Char)
  | [] => none
  | c :: t =>
    if atLineStart && isBoundary (c :: t) then some ([], c :: t)
    else
      match captureUntilBoundary (c == '\n') t with
      | some (cap, rest) => some (c :: cap, rest)
      | none => none

/-- One section body: the primary regex with the terminator lookahead, the
fallback regex capturing to the end, then `str.strip`, defaulting to the
empty string when the heading is absent. -/
def extractSection (word : String) (md : List Char) : String :=
  match findHeading word.data md with
  | none => ""
  | some cap =>
    match captureUntilBoundary true cap with
    | some (c, _) => ⟨stripL c⟩
    | none => ⟨stripL cap⟩

/-- One field of the taxonomy properties line, `\s*([^|]+)` up to a stop
character: greedy whitespace run, then the maximal non-empty run avoiding
the stop char, or on backtrack the last whitespace character; fails when
the stop character never follows.  Returns the capture and the suffix
starting at the stop character. -/
def taxField (stop : Char) (cs : List Char) : Option (List Char × List Char) :=
  let w := cs.takeWhile pySpace
  let r1 := cs.dropWhile pySpace
  let cap := r1.takeWhile (fun d => d ≠ stop)
  let rest := r1.dropWhile (fun d => d ≠ stop)
  if !cap.isEmpty then
    if !rest.isEmpty then some (cap, rest) else none
  else
    match w.reverse, r1 with
    | d :: _, _ :: _ => some ([d], r1)
    | _, _ => none

/-- After a field: expect the pipe separator, a whitespace run, then the
next literal label. -/
def taxSep (lbl : List Char) (rest : List Char) : Option (List Char) :=
  match rest with
  | '|' :: r =>
    let r' := r.dropWhile pySpace
    if lbl.isPrefixOf r' then some (r'.drop lbl.length) else none
  | _ => none

/-- The properties-line pattern
`\*Cuisine:\s*([^|]+)\s*\|\s*Protein:\s*([^|]+)\s*\|...\s*Cook Time:\s*([^*]+)\*`
at one position. -/
def matchTaxAt (cs : List Char) : Option (List Char × List Char × List Char × List Char × List Char × List Char × List Char) :=
  if "*Cuisine:".data.isPrefixOf cs then
    match taxField '|' (cs.drop 9) with
    | none => none
    | some (g1, r1) =>
    match taxSep "Protein:".data r1 with
    | none => none
    | some s1 =>
    match taxField '|' s1 with
    | none => none
    | some (g2, r2) =>
    match taxSep "Course:".data r2 with
    | none => none
    | some s2 =>
    match taxField '|' s2 with
    | none => none
    | some (g3, r3) =>
    match taxSep "Method:".data r3 with
    | none => none
    | some s3 =>
    match taxField '|' s3 with
    | none => none
    | some (g4, r4) =>
    match taxSep "Effort:".data r4 with
    | none => none
    | some s4 =>
    match taxField '|' s4 with
    | none => none
    | some (g5, r5) =>
    match taxSep "Rating:".data r5 with
    | none => none
    | some s5 =>
    match taxField '|' s5 with
    | none => none
    | some (g6, r6) =>
    match taxSep "Cook Time:".data r6 with
    | none => none
    | some s6 =>
    match taxField '*' s6 with
    | none => none
    | some (g7, _) => some (g1, g2, g3, g4, g5, g6, g7)
  else none

/-- Scan of `re.search` for the taxonomy properties line. -/
def taxGo : List Char → Option (List Char × List Char × List Char × List Char × List Char × List Char × List Char)
  | [] => matchTaxAt []
  | c :: t =>
    match matchTaxAt (c :: t) with
    | some r => some r
    | none => taxGo t

/-- The dictionary returned by `parse_recipe_markdown`. -/
structure RecipeRecord where
  name : String
  cuisine : String
  protein : String
  course : String
  method : String
  effort : String
  rating : String
  cook_time_prop : String
  prep_time : String
  cook_time : String
  total_time : String
  servings : String
  ingredients : String
  directions : String
  notes : String
  links : String
  nutrition : String
  photos : String
deriving DecidableEq

/-- Strip of an optional capture with empty default, the idiom
`m.group(i).strip() if m else ""`. -/
def stripOrEmpty (o : Option (List Char)) : String :=
  match o with
  | some c => ⟨stripL c⟩
  | none => ""

/-- `NotionRecipeClient.parse_recipe_markdown`. -/
def parse_recipe_markdown (s : String) : RecipeRecord :=
  let md := s.data
  let name : String :=
    match nameGo true md with
    | some n => ⟨n⟩
    | none => "Untitled Recipe"
  let tax := taxGo md
  { name := name
    cuisine := stripOrEmpty (tax.map (·.1))
    protein := stripOrEmpty (tax.map (·.2.1))
    course := stripOrEmpty (tax.map (·.2.2.1))
    method := stripOrEmpty (tax.map (·.2.2.2.1))
    effort := stripOrEmpty (tax.map (·.2.2.2.2.1))
    rating := stripOrEmpty (tax.map (·.2.2.2.2.2.1))
    cook_time_prop := stripOrEmpty (tax.map (·.2.2.2.2.2.2))
    prep_time := stripOrEmpty (labelGo "**Prep Time:**".data md)
    cook_time := stripOrEmpty (labelGo "**Cook Time:**".data md)
    total_time := stripOrEmpty (labelGo "**Total Time:**".data md)
    servings := stripOrEmpty (labelGo "**Servings:**".data md)
    ingredients := extractSection "Ingredients" md
    directions := extractSection "Directions" md
    notes := extractSection "Notes" md
    links := extractSection "Links" md
    nutrition := extractSection "Nutrition" md
    photos := extractSection "Photos" md }

/-! ## NotionRecipeClient._build_page_content and push_recipe -/

/-- A Notion content block as produced by `_build_page_content` (the block
dicts carry only a text payload, or the data-row cells for a table). -/
inductive NotionBlock where
  | heading2 (text : String)
  | heading3 (text : String)
  | numberedItem (text : String)
  | paragraph (text : String)
  | divider
  | table (rows : List (String × String × String))
deriving DecidableEq

/-- A Notion page property value as built by `push_recipe`. -/
inductive PropValue where
  | title (content : String)
  | multiSelect (names : List String)
  | select (name : String)
deriving DecidableEq

/-- Subheading text `line.lstrip(chr(35)).strip()`. -/
def subheadingText (line : List Char) : String :=
  ⟨stripL (line.dropWhile (fun c => c == '#'))⟩

/-- Table data-row collection: consume stripped lines while they are
non-empty and start with a pipe; a row contributes cells when splitting on
pipes and dropping the outer empty pieces leaves at least three parts. -/
def collectTableRows : List (List Char) → List (String × String × String) × List (List Char)
  | [] => ([], [])
  | l :: rest =>
    let row := stripL l
    if row.isEmpty || !("|".data.isPrefixOf row) then ([], l :: rest)
    else
      let parts := ((splitOnC '|' row).drop 1).dropLast.map stripL
      let (rs, rem) := collectTableRows rest
      match parts with
      | p0 :: p1 :: p2 :: _ => ((⟨p0⟩, ⟨p1⟩, ⟨p2⟩) :: rs, rem)
      | _ => (rs, rem)

/-- The ingredient while-loop of `_build_page_content`: subheadings become
heading-3 blocks; a table header line (pipe start and the literal word
Ingredient) starts table collection after an optional separator line; any
other line is skipped. -/
def buildIngredientBlocksF : Nat → List (List Char) → List NotionBlock
  | 0, _ => []
  | _ + 1, [] => []
  | fuel + 1, l :: rest =>
    let line := stripL l
    if "###".data.isPrefixOf line then
      NotionBlock.heading3 (subheadingText line) :: buildIngredientBlocksF fuel rest
    else if "|".data.isPrefixOf line && containsSub line "Ingredient".data then
      let rest1 :=
        match rest with
        | r :: t => if containsSub r "---".data then t else rest
        | [] => []
      let (rows, rem) := collectTableRows rest1
      (if rows.isEmpty then [] else [NotionBlock.table rows]) ++
        buildIngredientBlocksF fuel rem
    else buildIngredientBlocksF fuel rest

/-- One direction line: horizontal rules are skipped, subheadings become
heading-3 blocks, other lines lose a leading `N.` marker and become
numbered items when non-empty. -/
def directionLineBlocks (line : List Char) : List NotionBlock :=
  if line == "---".data then []
  else if "###".data.isPrefixOf line then [NotionBlock.heading3 (subheadingText line)]
  else
    let ds := line.takeWhile Char.isDigit
    let text :=
      if ds.isEmpty then line
      else
        match line.drop ds.length with
        | '.' :: r => r.dropWhile pySpace
        | _ => line
    if (stripL text).isEmpty then [] else [NotionBlock.numberedItem ⟨text⟩]

/-- `NotionRecipeClient._build_page_content`. -/
def build_page_content (r : RecipeRecord) : List NotionBlock :=
  (if r.ingredients ≠ "" then
    NotionBlock.heading2 "Ingredients" ::
      buildIngredientBlocksF (splitNl r.ingredients.data).length (splitNl r.ingredients.data) ++
        [NotionBlock.divider]
  else []) ++
  (if r.directions ≠ "" then
    NotionBlock.heading2 "Directions" ::
      (((splitNl r.directions.data).map stripL).filter (fun l => !l.isEmpty)).flatMap
        directionLineBlocks ++ [NotionBlock.divider]
  else []) ++
  [NotionBlock.heading2 "Notes"] ++
  (if r.notes ≠ "" then [NotionBlock.paragraph r.notes] else []) ++
  [NotionBlock.divider, NotionBlock.heading2 "Links"] ++
  (if r.links ≠ "" then [NotionBlock.paragraph r.links] else []) ++
  [NotionBlock.divider, NotionBlock.heading2 "Nutrition"] ++
  (if r.nutrition ≠ "" then [NotionBlock.paragraph r.nutrition] else []) ++
  [NotionBlock.divider, NotionBlock.heading2 "Photos"] ++
  (if r.photos ≠ "" then [NotionBlock.paragraph r.photos] else [])

/-- Comma split with per-token strip and empty-token drop, the idiom
`[v.strip() for v in field.split(",")]` filtered by truthiness. -/
def splitCommaClean (s : String) : List String :=
  (((splitOnC ',' s.data).map stripL).filter (fun l => !l.isEmpty)).map (⟨·⟩)

/-- The `properties` dict built by `push_recipe` (insertion order). -/
def buildProperties (r : RecipeRecord) : List (String × PropValue) :=
  ("Name", PropValue.title r.name) ::
  (if r.cuisine ≠ "" then [("Cuisine", PropValue.multiSelect (splitCommaClean r.cuisine))] else []) ++
  (if r.protein ≠ "" then [("Protein", PropValue.multiSelect (splitCommaClean r.protein))] else []) ++
  (if r.course ≠ "" then [("Course", PropValue.multiSelect (splitCommaClean r.course))] else []) ++
  (if r.method ≠ "" then [("Method", PropValue.multiSelect (splitCommaClean r.method))] else []) ++
  (if r.effort ≠ "" then [("Effort", PropValue.select ⟨stripL r.effort.data⟩)] else []) ++
  (if r.rating ≠ "" then [("Rating", PropValue.select ⟨stripL r.rating.data⟩)] else [])

/-- The substring the retry branch looks for in the stringified publish
error. -/
def schemaErrorMarker : String := "is not a property that exists"

/-- `NotionRecipeClient.push_recipe`, with the publish call modelled as a
function from the request to a result, instrumented with the list of
publish calls made (in order).  The first attempt uses the full property
set; an error whose message contains the schema marker triggers exactly one
retry with only the Name property and the same block list, whose outcome is
returned as is; any other error propagates. -/
def pushRecipeTrace
    (create : List (String × PropValue) → List NotionBlock → Except String String)
    (markdown : String) :
    Except String String × List (List (String × PropValue) × List NotionBlock) :=
  let recipeData := parse_recipe_markdown markdown
  let props := buildProperties recipeData
  let blocks := build_page_content recipeData
  match create props blocks with
  | Except.ok url => (Except.ok url, [(props, blocks)])
  | Except.error e =>
    if pyContains e schemaErrorMarker then
      let minimalProperties := [("Name", (props.lookup "Name").getD (PropValue.title ""))]
      (create minimalProperties blocks, [(props, blocks), (minimalProperties, blocks)])
    else (Except.error e, [(props, blocks)])

/-- `push_recipe` without the instrumentation. -/
def push_recipe
    (create : List (String × PropValue) → List NotionBlock → Except String String)
    (markdown : String) : Except String String :=
  (pushRecipeTrace create markdown).1

/-! ## Claims -/

/-- C7: given a document whose Instructions section contains exactly the
four lines Preheat oven / Mix / - Bake / 5. Cool, `renumber_instructions`
rewrites the section to exactly `1. Preheat oven`, a blank line, `2. Mix`,
a blank line, `3. Bake`, a blank line, `4. Cool`. -/
theorem claims_C7_renumber_determinism :
    renumber_instructions "## Instructions\nPreheat oven\nMix\n- Bake\n5. Cool" =
      "## Instructions\n1. Preheat oven\n\n2. Mix\n\n3. Bake\n\n4. Cool" := by
  decide

/-- C8: with the default configuration, `normalize_units` of
`2 tbsp butter` contains `tablespoons` (plural, since 2 is strictly greater
than 1), and of `1 tbsp butter` contains `tablespoon` but not
`tablespoons`. -/
theorem claims_C8_unit_pluralization :
    pyContains (normalize_units "2 tbsp butter") "tablespoons" = true ∧
    pyContains (normalize_units "1 tbsp butter") "tablespoon" = true ∧
    pyContains (normalize_units "1 tbsp butter") "tablespoons" = false := by
  decide

/-- C10: the duplicate dict key `c` resolves to the later temperature
entry, so `normalize_units` rewrites a quantity followed by the bare token
`c` to `°C` and never to `cup` (`2 c flour` becomes `2 °C flour`, and no
occurrence of `cup` appears), while `2 cups flour` is unchanged because no
map key matches `cups`. -/
theorem claims_C10_unit_c_collision :
    unit_normalizations.lookup "c" = some "°C" ∧
    normalize_units "2 c flour" = "2 °C flour" ∧
    pyContains (normalize_units "2 c flour") "cup" = false ∧
    normalize_units "2 cups flour" = "2 cups flour" := by
  decide

/-- The end-to-end scenario input of the specification. -/
def soupMarkdown : String :=
  "# Soup\n\n## Ingredients\n\n2 tbsp olive oil\n\n## Instructions\n\nHeat the oil\n"

/-- C1 (divergence witness): on the end-to-end input, format + renumber +
parse + compile yields the Name title `Soup`, but the compiled block list
contains no item block at all: the ingredient line `- 2 tablespoons olive
oil` is dropped (the ingredient loop only emits subheadings and pipe
tables), and the `## Instructions` section is lost entirely (the parser
extracts a `## Directions` section, which is absent), so no bulleted item
and no numbered item is produced, contradicting the claimed one bulleted
and one numbered item. -/
theorem claims_C1_end_to_end_divergence :
    buildProperties
        (parse_recipe_markdown (renumber_instructions (format soupMarkdown))) =
      [("Name", PropValue.title "Soup")] ∧
    (parse_recipe_markdown (renumber_instructions (format soupMarkdown))).ingredients =
      "- 2 tablespoons olive oil" ∧
    build_page_content
        (parse_recipe_markdown (renumber_instructions (format soupMarkdown))) =
      [NotionBlock.heading2 "Ingredients", NotionBlock.divider,
       NotionBlock.heading2 "Notes", NotionBlock.divider,
       NotionBlock.heading2 "Links", NotionBlock.divider,
       NotionBlock.heading2 "Nutrition", NotionBlock.divider,
       NotionBlock.heading2 "Photos"] := by
  decide

/-- The ingredient record of the repository unit test
`test_build_page_content` (non-empty ingredients body with no pipe
table). -/
def bulletIngredientsRecord : RecipeRecord :=
  { name := "Test Recipe", cuisine := "", protein := "", course := "",
    method := "", effort := "", rating := "", cook_time_prop := "",
    prep_time := "10 min", cook_time := "20 min", total_time := "30 min",
    servings := "4", ingredients := "- Ingredient 1\n- Ingredient 2",
    directions := "", notes := "Some notes here", links := "",
    nutrition := "", photos := "" }

/-- C3 (divergence witness): for a record whose ingredients body is the two
non-empty bulleted lines of the repository unit test, the compiler emits no
bulleted item block at all — the block list is exactly the section
headings, the notes paragraph and the dividers, with no per-line item
blocks — contradicting the claimed one bulleted item per non-empty
line. -/
theorem claims_C3_no_bulleted_items :
    build_page_content bulletIngredientsRecord =
      [NotionBlock.heading2 "Ingredients", NotionBlock.divider,
       NotionBlock.heading2 "Notes", NotionBlock.paragraph "Some notes here",
       NotionBlock.divider,
       NotionBlock.heading2 "Links", NotionBlock.divider,
       NotionBlock.heading2 "Nutrition", NotionBlock.divider,
       NotionBlock.heading2 "Photos"] := by
  decide

/-- C2: when the first publish attempt fails with an error message naming a
property that does not exist on the destination schema, `push_recipe`
makes exactly one retry, passing only the Name title property and the
identical block list, and returns that retry outcome as is (so a failing
retry propagates); a first failure with any other message propagates
unchanged with no retry. -/
theorem claims_C2_schema_retry
    (create : List (String × PropValue) → List NotionBlock → Except String String)
    (md : String) (e : String)
    (h : create (buildProperties (parse_recipe_markdown md))
           (build_page_content (parse_recipe_markdown md)) = Except.error e) :
    (buildProperties (parse_recipe_markdown md)).lookup "Name" =
        some (PropValue.title (parse_recipe_markdown md).name) ∧
    (pyContains e schemaErrorMarker = true →
       pushRecipeTrace create md =
         (create [("Name", PropValue.title (parse_recipe_markdown md).name)]
            (build_page_content (parse_recipe_markdown md)),
          [(buildProperties (parse_recipe_markdown md),
            build_page_content (parse_recipe_markdown md)),
           ([("Name", PropValue.title (parse_recipe_markdown md).name)],
            build_page_content (parse_recipe_markdown md))])) ∧
    (pyContains e schemaErrorMarker = false →
       pushRecipeTrace create md =
         (Except.error e,
          [(buildProperties (parse_recipe_markdown md),
            build_page_content (parse_recipe_markdown md))])) := by
  have hname : (buildProperties (parse_recipe_markdown md)).lookup "Name" =
      some (PropValue.title (parse_recipe_markdown md).name) := by
    simp [buildProperties, List.lookup]
  refine ⟨hname, ?_, ?_⟩
  · intro hc
    simp [pushRecipeTrace, h, hc, hname]
  · intro hc
    simp [pushRecipeTrace, h, hc]

/-- Concrete publish oracle for the C2 witness: rejects any request with
more than the single Name property, naming the Cuisine property in the
error, and accepts the title-only retry. -/
def witnessCreate (props : List (String × PropValue)) (_blocks : List NotionBlock) :
    Except String String :=
  if props.length == 1 then Except.ok "https://notion.example/page"
  else Except.error "Cuisine is not a property that exists in the database"

/-- Concrete markdown for the C2 witness (carries a populated taxonomy
line, so the full property set has more than the Name property). -/
def witnessMarkdown : String :=
  "# Soup\n\n*Cuisine: Thai | Protein: Veg | Course: Dinner | Method: Fry | Effort: X | Rating: 5 | Cook Time: 10 min*\n"

theorem claims_C2_schema_retry_witness :
    push_recipe witnessCreate witnessMarkdown = Except.ok "https://notion.example/page" ∧
    (pushRecipeTrace witnessCreate witnessMarkdown).2.length = 2 := by
  have h := claims_C2_schema_retry witnessCreate witnessMarkdown
    "Cuisine is not a property that exists in the database" (by rfl)
  have h2 := h.2.1 (by decide)
  constructor
  · show (pushRecipeTrace witnessCreate witnessMarkdown).1 = _
    rw [h2]
    rfl
  · rw [h2]
    rfl

/-- Replacement is the identity on a subject that does not contain the
pattern. -/
theorem replaceAllF_of_not_contains (rep pat : List Char) :
    ∀ (fuel : Nat) (s : List Char), containsSub s pat = false →
      replaceAllF rep pat fuel s = s := by
  intro fuel
  induction fuel with
  | zero => intro s _; rfl
  | succ n ih =>
    intro s hs
    cases s with
    | nil => rfl
    | cons c t =>
      have hnp : pat.isPrefixOf (c :: t) = false := by
        by_contra hne
        have : pat.isPrefixOf (c :: t) = true := by
          cases hp : pat.isPrefixOf (c :: t) with
          | true => rfl
          | false => exact absurd hp hne
        rw [containsSub, if_pos this] at hs
        simp at hs
      have ht : containsSub t pat = false := by
        rw [containsSub, if_neg (by simp [hnp])] at hs
        exact hs
      rw [replaceAllF, if_neg (by simp [hnp]), ih t ht]

/-- A fold of replacements over any fraction-map fragment is the identity
on a subject containing none of the keys. -/
theorem foldl_replace_of_no_keys :
    ∀ (m : List (String × String)) (s : List Char),
      (∀ kv ∈ m, containsSub s kv.1.data = false) →
      m.foldl (fun acc kv => replaceAll kv.1.data kv.2.data acc) s = s := by
  intro m
  induction m with
  | nil => intro s _; rfl
  | cons kv rest ih =>
    intro s hs
    have h1 : replaceAll kv.1.data kv.2.data s = s :=
      replaceAllF_of_not_contains _ _ _ s (hs kv (List.mem_cons_self kv rest))
    rw [List.foldl_cons, h1]
    exact ih s (fun kv2 hkv2 => hs kv2 (List.mem_cons_of_mem kv hkv2))

/-- C9: `normalize_fractions` is idempotent on every input whose single
normalization introduces or leaves no occurrence of any fraction-map key
(the claimed side condition that no substitution introduces a new
occurrence of a map key). -/
theorem claims_C9_fraction_idempotence (s : String)
    (h : ∀ kv ∈ fraction_normalizations, pyContains (normalize_fractions s) kv.1 = false) :
    normalize_fractions (normalize_fractions s) = normalize_fractions s := by
  show (⟨normalizeFractionsL (normalize_fractions s).data⟩ : String) = normalize_fractions s
  have := foldl_replace_of_no_keys fraction_normalizations (normalize_fractions s).data h
  rw [normalizeFractionsL, this]

theorem claims_C9_fraction_idempotence_witness :
    normalize_fractions (normalize_fractions "½ cup and ⅓ tsp or 0.75 oz") =
      normalize_fractions "½ cup and ⅓ tsp or 0.75 oz" :=
  claims_C9_fraction_idempotence "½ cup and ⅓ tsp or 0.75 oz" (by decide)

/-- The empty-section tolerance document: Photos, Sources and Notes
headings each immediately followed by a horizontal rule. -/
def emptySectionsDoc : String :=
  "# T\n\n## Photos\n\n---\n\n## Sources\n\n---\n\n## Notes\n\n---\n"

/-- C4: `parse_recipe_markdown` is a total Lean function on arbitrary
input (never fails); the name is the text captured by the first top-level
hash heading and falls back to `Untitled Recipe` when the pattern has no
match; every other field is the empty string when its pattern or section
search has no match; and on a document whose Photos and Notes headings are
immediately followed by a horizontal rule those fields parse to exactly
the empty string. -/
theorem claims_C4_parser_totality_defaults :
    (∀ md : String, nameGo true md.data = none →
       (parse_recipe_markdown md).name = "Untitled Recipe") ∧
    (∀ (md : String) (t : List Char), nameGo true md.data = some t →
       (parse_recipe_markdown md).name = ⟨t⟩) ∧
    (∀ md : String,
       (findHeading "Ingredients".data md.data = none →
          (parse_recipe_markdown md).ingredients = "") ∧
       (findHeading "Directions".data md.data = none →
          (parse_recipe_markdown md).directions = "") ∧
       (findHeading "Notes".data md.data = none →
          (parse_recipe_markdown md).notes = "") ∧
       (findHeading "Links".data md.data = none →
          (parse_recipe_markdown md).links = "") ∧
       (findHeading "Nutrition".data md.data = none →
          (parse_recipe_markdown md).nutrition = "") ∧
       (findHeading "Photos".data md.data = none →
          (parse_recipe_markdown md).photos = "")) ∧
    (∀ md : String,
       (labelGo "**Prep Time:**".data md.data = none →
          (parse_recipe_markdown md).prep_time = "") ∧
       (labelGo "**Cook Time:**".data md.data = none →
          (parse_recipe_markdown md).cook_time = "") ∧
       (labelGo "**Total Time:**".data md.data = none →
          (parse_recipe_markdown md).total_time = "") ∧
       (labelGo "**Servings:**".data md.data = none →
          (parse_recipe_markdown md).servings = "")) ∧
    (∀ md : String, taxGo md.data = none →
       (parse_recipe_markdown md).cuisine = "" ∧
       (parse_recipe_markdown md).protein = "" ∧
       (parse_recipe_markdown md).course = "" ∧
       (parse_recipe_markdown md).method = "" ∧
       (parse_recipe_markdown md).effort = "" ∧
       (parse_recipe_markdown md).rating = "" ∧
       (parse_recipe_markdown md).cook_time_prop = "") ∧
    ((parse_recipe_markdown emptySectionsDoc).name = "T" ∧
     (parse_recipe_markdown emptySectionsDoc).photos = "" ∧
     (parse_recipe_markdown emptySectionsDoc).notes = "") := by
  refine ⟨?_, ?_, ?_, ?_, ?_, by decide⟩
  · intro md h
    simp [parse_recipe_markdown, h]
  · intro md t h
    simp [parse_recipe_markdown, h]
  · intro md
    refine ⟨fun h => ?_, fun h => ?_, fun h => ?_, fun h => ?_, fun h => ?_, fun h => ?_⟩ <;>
      simp [parse_recipe_markdown, extractSection, h]
  · intro md
    refine ⟨fun h => ?_, fun h => ?_, fun h => ?_, fun h => ?_⟩ <;>
      simp [parse_recipe_markdown, stripOrEmpty, h]
  · intro md h
    refine ⟨?_, ?_, ?_, ?_, ?_, ?_, ?_⟩ <;>
      simp [parse_recipe_markdown, stripOrEmpty, h]

theorem claims_C4_parser_totality_defaults_witness :
    (parse_recipe_markdown "plain text, no recipe structure").name = "Untitled Recipe" ∧
    (parse_recipe_markdown "plain text, no recipe structure").ingredients = "" ∧
    (parse_recipe_markdown "plain text, no recipe structure").prep_time = "" ∧
    (parse_recipe_markdown "plain text, no recipe structure").cuisine = "" :=
  ⟨claims_C4_parser_totality_defaults.1 _ (by decide),
   ((claims_C4_parser_totality_defaults.2.2.1 "plain text, no recipe structure").1 (by decide)),
   ((claims_C4_parser_totality_defaults.2.2.2.1 "plain text, no recipe structure").1 (by decide)),
   (claims_C4_parser_totality_defaults.2.2.2.2.1 "plain text, no recipe structure" (by rfl)).1⟩

/-- A position inside the lazy capture is a line start when nothing has
been consumed and the capture began at a line start, or when the last
consumed character is a newline. -/
def lineStartOk (atStart : Bool) (p : List Char) : Prop :=
  (p = [] ∧ atStart = true) ∨ p.getLast? = some '\n'

/-- The two-subheading regression document (ingredients section with two
subsections). -/
def subheadingsDoc : String :=
  "# Test Recipe\n\n## Ingredients\n\n### For the Dough:\n\n- 2 cups - flour\n- 1 teaspoon - salt\n\n### For the Filling:\n\n- 1 cup - cheese\n- 2 tablespoons - herbs\n\n---\n\n## Instructions\n\n1. Make the dough\n\n---\n"

/-- C5: the lazy section capture terminates only at the first line start
satisfying the terminator lookahead (a line beginning with three dashes or
with two hashes, one whitespace and an uppercase letter) — a line starting
with three hashes is never a terminator — and consequently, on the
regression document, both subsection headings and the last content line
before the boundary remain verbatim substrings of the parsed ingredients
body. -/
theorem claims_C5_section_boundaries :
    (∀ cs : List Char, isBoundary ('#' :: '#' :: '#' :: cs) = false) ∧
    (∀ (cs : List Char) (atStart : Bool) (cap rest : List Char),
       captureUntilBoundary atStart cs = some (cap, rest) →
       cs = cap ++ rest ∧ isBoundary rest = true ∧
       ∀ p q, cap = p ++ q → q ≠ [] → lineStartOk atStart p →
         isBoundary (q ++ rest) = false) ∧
    (pyContains (parse_recipe_markdown subheadingsDoc).ingredients
        "### For the Dough:" = true ∧
     pyContains (parse_recipe_markdown subheadingsDoc).ingredients
        "### For the Filling:" = true ∧
     pyContains (parse_recipe_markdown subheadingsDoc).ingredients
        "- 2 tablespoons - herbs" = true) := by
  refine ⟨?_, ?_, by decide⟩
  · intro cs
    have h1 : "---".data.isPrefixOf ('#' :: '#' :: '#' :: cs) = false := by
      show (('-' == '#') && _) = false
      rw [show ('-' == '#') = false from by decide, Bool.false_and]
    cases cs with
    | nil =>
      show ("---".data.isPrefixOf ('#' :: '#' :: '#' :: []) || false) = false
      rw [h1, Bool.or_false]
    | cons d t =>
      show ("---".data.isPrefixOf ('#' :: '#' :: '#' :: d :: t) ||
        (('#' == '#') && ('#' == '#') && pySpace '#' && pyUpper d)) = false
      rw [h1, show pySpace '#' = false from by decide]
      simp
  · intro cs
    induction cs with
    | nil =>
      intro atStart cap rest h
      simp [captureUntilBoundary] at h
    | cons c t ih =>
      intro atStart cap rest h
      rw [captureUntilBoundary] at h
      by_cases hb : (atStart && isBoundary (c :: t)) = true
      · rw [if_pos hb] at h
        simp only [Option.some.injEq, Prod.mk.injEq] at h
        obtain ⟨hcap, hrest⟩ := h
        subst hcap
        subst hrest
        refine ⟨rfl, (Bool.and_eq_true _ _ ▸ hb).2, ?_⟩
        intro p q hpq hq _
        exact absurd (List.append_eq_nil.mp hpq.symm).2 hq
      · rw [if_neg hb] at h
        cases hrec : captureUntilBoundary (c == '\n') t with
        | none =>
          rw [hrec] at h
          simp at h
        | some pr =>
          obtain ⟨cap2, rest2⟩ := pr
          rw [hrec] at h
          simp only [Option.some.injEq, Prod.mk.injEq] at h
          obtain ⟨hcap, hrest⟩ := h
          subst hrest
          subst hcap
          obtain ⟨ht, hbrest, hno⟩ := ih (c == '\n') cap2 rest2 hrec
          refine ⟨by rw [List.cons_append, ← ht], hbrest, ?_⟩
          intro p q hpq hq hls
          cases p with
          | nil =>
            simp only [List.nil_append] at hpq
            rw [← hpq, List.cons_append, ← ht]
            rcases hls with ⟨_, hstart⟩ | hlast
            · cases hA : isBoundary (c :: t) with
              | false => rfl
              | true => exact absurd (by rw [hstart, hA]; rfl) hb
            · simp [List.getLast?] at hlast
          | cons c0 p2 =>
            injection hpq with hc0 hcap2
            refine hno p2 q hcap2 hq ?_
            rcases hls with ⟨hnil, _⟩ | hlast
            · exact absurd hnil (by simp)
            · cases p2 with
              | nil =>
                left
                refine ⟨rfl, ?_⟩
                have hc0n : c0 = '\n' := by simpa [List.getLast?] using hlast
                rw [hc0, hc0n]
                decide
              | cons c1 p3 =>
                right
                rw [List.getLast?_cons_cons] at hlast
                exact hlast

theorem claims_C5_section_boundaries_witness :
    isBoundary "---x".data = true ∧
    isBoundary ("abc\n".data ++ "---x".data) = false := by
  have h := claims_C5_section_boundaries.2.1 "abc\n---x".data true
    "abc\n".data "---x".data (by decide)
  exact ⟨h.2.1, h.2.2 [] "abc\n".data rfl (by decide) (Or.inl ⟨rfl, rfl⟩)⟩

/-! ## C6 support: the formatter preserves the line count -/

/-- A piece produced by the newline split contains no newline. -/
def nlFree (l : List Char) : Prop := '\n' ∉ l

theorem nlFree_of_sublist {l2 l : List Char} (h : List.Sublist l2 l) (hn : nlFree l) :
    nlFree l2 :=
  fun hm => hn (h.subset hm)

theorem nlFree_cons {c : Char} {l : List Char} (hc : c ≠ '\n') (h : nlFree l) :
    nlFree (c :: l) := by
  intro hm
  rcases List.mem_cons.mp hm with h1 | h1
  · exact hc h1.symm
  · exact h h1

theorem splitOnC_ne_nil (sep : Char) (l : List Char) : splitOnC sep l ≠ [] := by
  cases l with
  | nil => simp [splitOnC]
  | cons c t =>
    rw [splitOnC]
    by_cases h : (c == sep) = true
    · rw [if_pos h]
      simp
    · rw [if_neg h]
      cases splitOnC sep t <;> simp

theorem mem_splitOnC_not_sep (sep : Char) :
    ∀ (l piece : List Char), piece ∈ splitOnC sep l → sep ∉ piece := by
  intro l
  induction l with
  | nil =>
    intro piece hp
    simp [splitOnC] at hp
    subst hp
    simp
  | cons c t ih =>
    intro piece hp
    rw [splitOnC] at hp
    by_cases h : (c == sep) = true
    · rw [if_pos h] at hp
      rcases List.mem_cons.mp hp with h1 | h1
      · subst h1; simp
      · exact ih piece h1
    · rw [if_neg h] at hp
      cases hs : splitOnC sep t with
      | nil => exact absurd hs (splitOnC_ne_nil sep t)
      | cons h0 r =>
        rw [hs] at hp
        rcases List.mem_cons.mp hp with h1 | h1
        · subst h1
          intro hm
          rcases List.mem_cons.mp hm with h2 | h2
          · rw [h2] at h
            simp at h
          · exact ih h0 (by rw [hs]; exact List.mem_cons_self h0 r) h2
        · exact ih piece (by rw [hs]; exact List.mem_cons_of_mem h0 h1)

theorem formatGo_length : ∀ (L : List (List Char)) (a b : Bool),
    (formatGo a b L).length = L.length := by
  intro L
  induction L with
  | nil => intro a b; rfl
  | cons l rest ih =>
    intro a b
    simp only [formatGo]
    split_ifs <;> simp [ih]

theorem mem_replaceAllF {c : Char} (rep pat : List Char) :
    ∀ (fuel : Nat) (s : List Char), c ∈ replaceAllF rep pat fuel s → c ∈ s ∨ c ∈ rep := by
  intro fuel
  induction fuel with
  | zero => intro s h; exact Or.inl h
  | succ n ih =>
    intro s h
    cases s with
    | nil => simp [replaceAllF] at h
    | cons c0 t =>
      rw [replaceAllF] at h
      by_cases hp : (pat.isPrefixOf (c0 :: t) && !pat.isEmpty) = true
      · rw [if_pos hp] at h
        rcases List.mem_append.mp h with h1 | h1
        · exact Or.inr h1
        · rcases ih _ h1 with h2 | h2
          · exact Or.inl ((List.drop_sublist _ _).subset h2)
          · exact Or.inr h2
      · rw [if_neg hp] at h
        rcases List.mem_cons.mp h with h1 | h1
        · exact Or.inl (by rw [h1]; exact List.mem_cons_self c0 t)
        · rcases ih t h1 with h2 | h2
          · exact Or.inl (List.mem_cons_of_mem c0 h2)
          · exact Or.inr h2

theorem nlFree_replaceAll {pat rep s : List Char} (hr : '\n' ∉ rep) (hs : nlFree s) :
    nlFree (replaceAll pat rep s) := by
  intro hm
  rcases mem_replaceAllF rep pat s.length s hm with h | h
  · exact hs h
  · exact hr h

theorem nlFree_normalizeFractionsL {s : List Char} (hs : nlFree s) :
    nlFree (normalizeFractionsL s) := by
  have key : ∀ (m : List (String × String)), (∀ kv ∈ m, '\n' ∉ kv.2.data) →
      ∀ s2, nlFree s2 →
        nlFree (m.foldl (fun acc kv => replaceAll kv.1.data kv.2.data acc) s2) := by
    intro m
    induction m with
    | nil => intro _ s2 h; exact h
    | cons kv rest ih =>
      intro hv s2 h
      rw [List.foldl_cons]
      exact ih (fun kv2 h2 => hv kv2 (List.mem_cons_of_mem kv h2)) _
        (nlFree_replaceAll (hv kv (List.mem_cons_self kv rest)) h)
  exact key fraction_normalizations (by decide) s hs

theorem char_toNat_ofNat_of_valid {n : Nat} (h : n.isValidChar) :
    (Char.ofNat n).toNat = n := by
  rw [Char.ofNat, dif_pos h]
  rfl

theorem toLower_eq_nl {d : Char} (h : d.toLower = '\n') : d = '\n' := by
  by_cases hc : d.toNat ≥ 65 ∧ d.toNat ≤ 90
  · exfalso
    have h1 : d.toLower = Char.ofNat (d.toNat + 32) := by
      simp only [Char.toLower]
      rw [if_pos hc]
    have h2 : (Char.ofNat (d.toNat + 32)).toNat = d.toNat + 32 :=
      char_toNat_ofNat_of_valid (Or.inl (by omega))
    rw [h1] at h
    rw [h] at h2
    have h3 : ('\n' : Char).toNat = 10 := rfl
    omega
  · have h1 : d.toLower = d := by
      simp only [Char.toLower]
      rw [if_neg hc]
    rw [h1] at h
    exact h

theorem lookup_some_mem {α β : Type} [BEq α] :
    ∀ (l : List (α × β)) (k : α) (v : β), l.lookup k = some v → v ∈ l.map Prod.snd := by
  intro l
  induction l with
  | nil => intro k v h; simp [List.lookup] at h
  | cons kv rest ih =>
    intro k v h
    obtain ⟨a, b⟩ := kv
    rw [List.lookup] at h
    by_cases hb : (k == a) = true
    · rw [hb] at h
      simp only [Option.some.injEq] at h
      subst h
      exact List.mem_map.mpr ⟨(a, b), List.mem_cons_self _ _, rfl⟩
    · rw [Bool.of_not_eq_true hb] at h
      rcases List.mem_map.mp (ih k v h) with ⟨x, hx, he⟩
      exact List.mem_map.mpr ⟨x, List.mem_cons_of_mem _ hx, he⟩

theorem nl_not_in_resolveUnit {qty txt : List Char} (ht : '\n' ∉ txt) :
    '\n' ∉ resolveUnit qty txt := by
  have hlow : '\n' ∉ txt.map Char.toLower := by
    intro hm
    rcases List.mem_map.mp hm with ⟨d, hd, hdl⟩
    have hd2 : d = '\n' := toLower_eq_nl hdl
    rw [hd2] at hd
    exact ht hd
  have hvals : ∀ v ∈ unit_normalizations.map Prod.snd, '\n' ∉ v.data := by decide
  have hplur : ∀ v ∈ unit_plurals.map Prod.snd, '\n' ∉ v.data := by decide
  have hFU : '\n' ∉ (match unit_normalizations.lookup (⟨txt.map Char.toLower⟩ : String) with
      | some v => v
      | none => (⟨txt.map Char.toLower⟩ : String)).data := by
    cases h1 : unit_normalizations.lookup (⟨txt.map Char.toLower⟩ : String) with
    | some v => exact hvals v (lookup_some_mem _ _ _ h1)
    | none => exact hlow
  simp only [resolveUnit]
  split
  · split
    · next p hp => exact hplur p (lookup_some_mem _ _ _ hp)
    · exact hFU
  · exact hFU

theorem matchUnitKey_take :
    ∀ (keys : List (List Char)) (cs txt : List Char) (n : Nat),
      matchUnitKey keys cs = some (txt, n) → ∃ m, txt = cs.take m := by
  intro keys
  induction keys with
  | nil => intro cs txt n h; simp [matchUnitKey] at h
  | cons k rest ih =>
    intro cs txt n h
    simp only [matchUnitKey] at h
    split at h
    · split at h
      · split at h
        · simp only [Option.some.injEq, Prod.mk.injEq] at h
          exact ⟨k.length, h.1.symm⟩
        · split at h
          · simp only [Option.some.injEq, Prod.mk.injEq] at h
            exact ⟨k.length, h.1.symm⟩
          · exact ih cs txt n h
      · split at h
        · simp only [Option.some.injEq, Prod.mk.injEq] at h
          exact ⟨k.length, h.1.symm⟩
        · exact ih cs txt n h
    · exact ih cs txt n h

theorem tryUnitMatch_nlFree {wb : Bool} {s rep : List Char} {n : Nat}
    (hs : nlFree s) (h : tryUnitMatch wb s = some (rep, n)) : '\n' ∉ rep := by
  simp only [tryUnitMatch] at h
  split at h
  · exact absurd h (by simp)
  · split at h
    · exact absurd h (by simp)
    · split at h
      · exact absurd h (by simp)
      · rename_i txt m hk
        simp only [Option.some.injEq, Prod.mk.injEq] at h
        obtain ⟨hrep, _⟩ := h
        rw [← hrep]
        intro hm
        rcases List.mem_append.mp hm with h1 | h1
        · rcases List.mem_append.mp h1 with h2 | h2
          · exact hs ((List.takeWhile_sublist _).subset h2)
          · exact hs ((List.dropWhile_sublist _).subset
              ((List.takeWhile_sublist _).subset h2))
        · rcases List.mem_cons.mp h1 with h2 | h2
          · exact absurd h2 (by decide)
          · obtain ⟨m2, hm2⟩ := matchUnitKey_take _ _ _ _ hk
            have htxt : '\n' ∉ txt := by
              rw [hm2]
              intro hx
              exact hs ((List.dropWhile_sublist _).subset
                ((List.dropWhile_sublist _).subset
                  ((List.dropWhile_sublist _).subset ((List.take_sublist _ _).subset hx))))
            exact nl_not_in_resolveUnit htxt h2

theorem unitsGoF_succ (n : Nat) (b : Bool) (s : List Char) :
    unitsGoF (n + 1) b s = match tryUnitMatch b s with
      | some (rep, cnt) => rep ++ unitsGoF n true (s.drop cnt)
      | none =>
        match s with
        | [] => []
        | c :: t => c :: unitsGoF n (isWordChar c) t := rfl

theorem nlFree_unitsGoF : ∀ (fuel : Nat) (b : Bool) (s : List Char),
    nlFree s → nlFree (unitsGoF fuel b s) := by
  intro fuel
  induction fuel with
  | zero => intro b s h; exact h
  | succ n ih =>
    intro b s hs
    cases hm : tryUnitMatch b s with
    | some pr =>
      obtain ⟨rep, cnt⟩ := pr
      rw [unitsGoF_succ, hm]
      intro hmem
      rcases List.mem_append.mp hmem with h1 | h1
      · exact tryUnitMatch_nlFree hs hm h1
      · exact ih true _ (nlFree_of_sublist (List.drop_sublist _ _) hs) h1
    | none =>
      rw [unitsGoF_succ, hm]
      cases s with
      | nil =>
        intro hmem
        simp at hmem
      | cons c t =>
        intro hmem
        rcases List.mem_cons.mp hmem with h1 | h1
        · exact hs (by rw [h1]; exact List.mem_cons_self c t)
        · exact ih (isWordChar c) t (fun hm2 => hs (List.mem_cons_of_mem c hm2)) h1

theorem nlFree_format_ingredient_line {l : List Char} (h : nlFree l) :
    nlFree (format_ingredient_line l) := by
  have hstr : nlFree (lstripL l) := nlFree_of_sublist (List.dropWhile_sublist _) h
  have hline1 : nlFree (if enforce_ingredient_bullets && !(['-'].isPrefixOf (lstripL l)) then
      if !(lstripL l).isEmpty && !(['*'].isPrefixOf (lstripL l)) then
        '-' :: ' ' :: lstripL l
      else if ['*'].isPrefixOf (lstripL l) then
        '-' :: ' ' :: lstripL ((lstripL l).drop 1)
      else l
    else l) := by
    split_ifs with h1 h2 h3
    · exact nlFree_cons (by decide) (nlFree_cons (by decide) hstr)
    · exact nlFree_cons (by decide) (nlFree_cons (by decide)
        (nlFree_of_sublist (List.dropWhile_sublist _)
          (nlFree_of_sublist (List.drop_sublist _ _) hstr)))
    · exact h
    · exact h
  exact nlFree_unitsGoF _ _ _ (nlFree_normalizeFractionsL hline1)

theorem nlFree_format_instruction_line {l : List Char} (h : nlFree l) :
    nlFree (format_instruction_line l) := by
  have hstr : nlFree (lstripL l) := nlFree_of_sublist (List.dropWhile_sublist _) h
  simp only [format_instruction_line]
  split_ifs
  · exact nlFree_of_sublist (List.dropWhile_sublist _)
      (nlFree_of_sublist (List.drop_sublist _ _) hstr)
  · exact hstr
  · exact hstr
  · exact h

theorem nlFree_formatGo : ∀ (L : List (List Char)) (a b : Bool),
    (∀ l ∈ L, nlFree l) → ∀ l2 ∈ formatGo a b L, nlFree l2 := by
  intro L
  induction L with
  | nil => intro a b _ l2 hmem; simp [formatGo] at hmem
  | cons l rest ih =>
    intro a b hL l2 hmem
    have hl : nlFree l := hL l (List.mem_cons_self l rest)
    have hrest : ∀ x ∈ rest, nlFree x := fun x hx => hL x (List.mem_cons_of_mem l hx)
    simp only [formatGo] at hmem
    split_ifs at hmem with h1 h2 h3 h4 h5
    · rcases List.mem_cons.mp hmem with he | he
      · rw [he]; exact hl
      · exact ih _ _ hrest l2 he
    · rcases List.mem_cons.mp hmem with he | he
      · rw [he]; exact hl
      · exact ih _ _ hrest l2 he
    · rcases List.mem_cons.mp hmem with he | he
      · rw [he]; exact hl
      · exact ih _ _ hrest l2 he
    · rcases List.mem_cons.mp hmem with he | he
      · rw [he]; exact nlFree_format_ingredient_line hl
      · exact ih _ _ hrest l2 he
    · rcases List.mem_cons.mp hmem with he | he
      · rw [he]; exact nlFree_format_instruction_line hl
      · exact ih _ _ hrest l2 he
    · rcases List.mem_cons.mp hmem with he | he
      · rw [he]; exact hl
      · exact ih _ _ hrest l2 he

theorem splitNl_of_nlFree {l : List Char} (h : nlFree l) : splitNl l = [l] := by
  induction l with
  | nil => rfl
  | cons c t ih =>
    have hc : ¬(c == '\n') = true := by
      simp only [beq_iff_eq]
      intro he
      exact h (by rw [he]; exact List.mem_cons_self _ _)
    have ht : nlFree t := fun hm => h (List.mem_cons_of_mem c hm)
    show splitOnC '\n' (c :: t) = [c :: t]
    rw [splitOnC, if_neg hc, show splitOnC '\n' t = [t] from ih ht]

theorem splitNl_append_nl {l : List Char} (t : List Char) (h : nlFree l) :
    splitNl (l ++ '\n' :: t) = l :: splitNl t := by
  induction l with
  | nil =>
    show splitOnC '\n' ('\n' :: t) = [] :: splitOnC '\n' t
    rw [splitOnC, if_pos (by decide)]
  | cons c l2 ih =>
    have hc : ¬(c == '\n') = true := by
      simp only [beq_iff_eq]
      intro he
      exact h (by rw [he]; exact List.mem_cons_self _ _)
    have hl2 : nlFree l2 := fun hm => h (List.mem_cons_of_mem c hm)
    show splitOnC '\n' (c :: (l2 ++ '\n' :: t)) = (c :: l2) :: splitOnC '\n' t
    rw [splitOnC, if_neg hc,
      show splitOnC '\n' (l2 ++ '\n' :: t) = l2 :: splitOnC '\n' t from ih hl2]

theorem splitNl_joinNl : ∀ (L : List (List Char)), L ≠ [] → (∀ l ∈ L, nlFree l) →
    splitNl (joinNl L) = L := by
  intro L
  induction L with
  | nil => intro h _; exact absurd rfl h
  | cons l rest ih =>
    intro _ hL
    cases rest with
    | nil => exact splitNl_of_nlFree (hL l (List.mem_cons_self l []))
    | cons l2 rest2 =>
      show splitNl (l ++ '\n' :: joinNl (l2 :: rest2)) = l :: l2 :: rest2
      rw [splitNl_append_nl _ (hL l (List.mem_cons_self _ _)),
        ih (by simp) (fun x hx => hL x (List.mem_cons_of_mem l hx))]

/-- C6: `format` preserves the number of lines of its input (splitting on
newline): the per-line rewrite emits exactly one output line per input
line and no rewrite introduces a newline. -/
theorem claims_C6_format_line_count (md : String) :
    (splitNl (format md).data).length = (splitNl md.data).length := by
  show (splitNl (joinNl (formatGo false false (splitNl md.data)))).length = _
  have hne : formatGo false false (splitNl md.data) ≠ [] := by
    intro hnil
    have hlen := formatGo_length (splitNl md.data) false false
    rw [hnil] at hlen
    exact splitOnC_ne_nil '\n' md.data (List.length_eq_zero.mp hlen.symm)
  rw [splitNl_joinNl _ hne
    (nlFree_formatGo _ false false (fun l hl => mem_splitOnC_not_sep '\n' md.data l hl))]
  exact formatGo_length _ false false
